import Mathlib

/-!
Shallow embedding of `fastembed/common/model_management.py`.

The filesystem is modelled explicitly as a pair of finite lists: known
directory paths and known regular files with their contents.  Paths are
lists of segments.  Every Python function of the module becomes a pure
Lean function that threads the filesystem state and returns either a
value or a raised Python exception (`PyErr`).  External collaborators
(the HTTP transport, the tarfile decoder, the huggingface hub client)
are oracle fields of a `World` parameter.
-/

namespace FastEmbed

abbrev FsPath := List String

/-- Remove the leading segments `p` from `q`; `some rest` iff `q = p ++ rest`. -/
def stripLead : FsPath → FsPath → Option FsPath
  | [], q => some q
  | _ :: _, [] => none
  | a :: as, b :: bs => if a = b then stripLead as bs else none

/-- `q` lies in the tree rooted at `p` (including `p` itself). -/
def inTreeB (q p : FsPath) : Bool := (stripLead p q).isSome

/-- `q` is a direct child of directory `p` (the `glob "*"` relation). -/
def isChildB (q p : FsPath) : Bool :=
  match stripLead p q with
  | some [_] => true
  | _ => false

/-- `q` is a strict descendant of `p` (the `rglob` search space). -/
def underB (q p : FsPath) : Bool :=
  match stripLead p q with
  | some (_ :: _) => true
  | _ => false

/-- Render a path the way `str(PosixPath(...))` joins segments. -/
def pathToString : FsPath → String
  | [] => ""
  | [s] => s
  | s :: r :: rest => s ++ "/" ++ pathToString (r :: rest)

/-- `listLeads pat t`: the character list `pat` is an initial run of `t`. -/
def listLeads : List Char → List Char → Bool
  | [], _ => true
  | _ :: _, [] => false
  | a :: as, b :: bs => a == b && listLeads as bs

/-- `listContains t pat`: `pat` occurs contiguously somewhere in `t`. -/
def listContains : List Char → List Char → Bool
  | [], pat => pat.isEmpty
  | b :: bs, pat => listLeads pat (b :: bs) || listContains bs pat

/-- Python `str.endswith`. -/
def strEndsWith (s suf : String) : Bool := listLeads suf.data.reverse s.data.reverse

/-- Python substring containment, the semantics of `"tmp" in cache_dir`. -/
def strContainsTmp (s : String) : Bool := listContains s.data "tmp".data

/-- All prefixes of a path, shortest first (the directories `mkdir(parents=True)` ensures). -/
def prefixesOf : FsPath → List FsPath
  | [] => [[]]
  | a :: rest => [] :: (prefixesOf rest).map (a :: ·)

/-- Split a character list on `/`, the way Python `s.split("/")` does. -/
def splitOnSlash : List Char → List (List Char)
  | [] => [[]]
  | c :: rest =>
    let r := splitOnSlash rest
    if c = '/' then [] :: r
    else
      match r with
      | [] => [[c]]
      | seg :: segs => (c :: seg) :: segs

/-- Python `s.split("/")[-1]`. -/
def lastComponent (s : String) : String := String.mk ((splitOnSlash s.data).getLastD [])

/-- Python `Path(s)` applied to a collaborator-returned string, as a segment list. -/
def strToPath (s : String) : FsPath := (splitOnSlash s.data).map String.mk

/-- One member of a tar archive: a directory or a regular file, by path relative
to the extraction root. -/
inductive Entry where
  | dirE (rel : FsPath)
  | fileE (rel : FsPath) (content : String)
  deriving DecidableEq, Repr

/-- An HTTP response as seen through `requests.get(url, stream=True)`. -/
structure Response where
  status : Nat
  body : String
  deriving DecidableEq, Repr

/-- Python exceptions raised or caught by the module, by class.  Subclass facts
used below: `PermissionError` is a builtin subclass of `OSError`, and
`EnvironmentError` is a builtin alias of `OSError` (Python 3). -/
inductive PyErr where
  | valueError (msg : String)
  | permissionError (msg : String)
  | osError (msg : String)
  | repositoryNotFoundError (msg : String)
  | assertionError (msg : String)
  | typeError (msg : String)
  | keyboardInterrupt
  deriving DecidableEq, Repr

/-- Membership in the `EnvironmentError` (= `OSError`) class tree:
`PermissionError` subclasses `OSError`, so an `except EnvironmentError`
clause catches it. -/
def PyErr.isEnvironmentError : PyErr → Bool
  | .osError _ => true
  | .permissionError _ => true
  | _ => false

def PyErr.isRepositoryNotFound : PyErr → Bool
  | .repositoryNotFoundError _ => true
  | _ => false

def PyErr.isValueError : PyErr → Bool
  | .valueError _ => true
  | _ => false

/-- The exact filter of `except (EnvironmentError, RepositoryNotFoundError, ValueError)`
in `download_model`, with Python subclass matching. -/
def caughtByHfFallback (e : PyErr) : Bool :=
  e.isEnvironmentError || e.isRepositoryNotFound || e.isValueError

/-- Decidable equality for raised-or-returned results, so concrete runs can be
checked by `decide`. -/
def exceptDecEq {ε α : Type} [DecidableEq ε] [DecidableEq α] :
    DecidableEq (Except ε α)
  | .error a, .error b =>
    if h : a = b then .isTrue (congrArg Except.error h)
    else .isFalse fun hc => h (Except.error.inj hc)
  | .error _, .ok _ => .isFalse fun hc => Except.noConfusion hc
  | .ok _, .error _ => .isFalse fun hc => Except.noConfusion hc
  | .ok a, .ok b =>
    if h : a = b then .isTrue (congrArg Except.ok h)
    else .isFalse fun hc => h (Except.ok.inj hc)

instance {ε α : Type} [DecidableEq ε] [DecidableEq α] : DecidableEq (Except ε α) :=
  exceptDecEq

/-- External collaborators: the HTTP transport, the tarfile decoder
(`none` = `TarError`, i.e. a corrupt or truncated archive), and the
huggingface `snapshot_download` client (repo id, cache dir string). -/
structure World where
  net : String → Response
  tar : String → Option (List Entry)
  hf : String → String → Except PyErr String

/-- The filesystem: directory paths, and regular files with contents. -/
structure FS where
  dirs : List FsPath
  files : List (FsPath × String)
  deriving DecidableEq, Repr

def FS.isDir (fs : FS) (p : FsPath) : Bool := decide (p ∈ fs.dirs)

def FS.getFile (fs : FS) (p : FsPath) : Option String :=
  (fs.files.find? fun e => decide (e.1 = p)).map (·.2)

def FS.isFile (fs : FS) (p : FsPath) : Bool := (fs.getFile p).isSome

/-- Python `os.path.exists` / `Path.exists`: true for files and directories. -/
def FS.pathExists (fs : FS) (p : FsPath) : Bool := fs.isDir p || fs.isFile p

/-- All node paths, directories first (a deterministic walk enumeration). -/
def FS.nodes (fs : FS) : List FsPath := fs.dirs ++ fs.files.map Prod.fst

/-- The entries `Path.glob("*")` yields: direct children of `p`. -/
def FS.globChildren (fs : FS) (p : FsPath) : List FsPath :=
  fs.nodes.filter fun q => isChildB q p

def FS.globCount (fs : FS) (p : FsPath) : Nat := (fs.globChildren p).length

/-- `Path.rglob(name)` for a plain file name: strict descendants named `name`. -/
def FS.rglob (fs : FS) (dir : FsPath) (name : String) : List FsPath :=
  fs.nodes.filter fun q => underB q dir && decide (q.getLastD "" = name)

/-- `shutil.rmtree p`: drop `p` and everything below it. -/
def FS.rmtree (fs : FS) (p : FsPath) : FS :=
  { dirs := fs.dirs.filter fun q => !inTreeB q p,
    files := fs.files.filter fun e => !inTreeB e.1 p }

/-- `p.mkdir(parents := True, exist_ok := True)`: ensure `p` and its ancestors. -/
def FS.mkdirParents (fs : FS) (p : FsPath) : FS :=
  { fs with dirs := fs.dirs ++ (prefixesOf p).filter fun d => !decide (d ∈ fs.dirs) }

/-- `open(p, "wb")` followed by writing `c`: create or truncate-and-replace. -/
def FS.writeFile (fs : FS) (p : FsPath) (c : String) : FS :=
  { fs with files := (p, c) :: fs.files.filter fun e => !decide (e.1 = p) }

/-- `Path.unlink`: remove the regular file at `p`. -/
def FS.unlink (fs : FS) (p : FsPath) : FS :=
  { fs with files := fs.files.filter fun e => !decide (e.1 = p) }

/-- Relocation of one path under `os.rename src dst`. -/
def rebase (src dst q : FsPath) : FsPath :=
  match stripLead src q with
  | some rest => dst ++ rest
  | none => q

/-- `os.rename src dst`: every node at or below `src` moves below `dst`. -/
def FS.rename (fs : FS) (src dst : FsPath) : FS :=
  { dirs := fs.dirs.map (rebase src dst),
    files := fs.files.map fun e => (rebase src dst e.1, e.2) }

/-- Materialize one tar member under `base` (tarfile creates parent dirs as needed). -/
def FS.extractOne (fs : FS) (base : FsPath) : Entry → FS
  | .dirE rel => fs.mkdirParents (base ++ rel)
  | .fileE rel c => (fs.mkdirParents (base ++ rel.dropLast)).writeFile (base ++ rel) c

/-- `tar.extractall(path := base)`: members in archive order. -/
def FS.extractAll (fs : FS) (base : FsPath) (es : List Entry) : FS :=
  es.foldl (fun f e => f.extractOne base e) fs

/-- Add one directory entry to the store (used to state locator claims). -/
def FS.addDir (fs : FS) (d : FsPath) : FS := { fs with dirs := d :: fs.dirs }

/-! ## The module's functions -/

/-- The `fast-{model_name.split('/')[-1]}` cache name. -/
def fastName (name : String) : String := "fast-" ++ lastComponent name

def finalDir (cache_dir : FsPath) (name : String) : FsPath := cache_dir ++ [fastName name]

def tmpArea (cache_dir : FsPath) : FsPath := cache_dir ++ ["tmp"]

def stagingDir (cache_dir : FsPath) (name : String) : FsPath :=
  tmpArea cache_dir ++ [fastName name]

def tarFile (cache_dir : FsPath) (name : String) : FsPath :=
  cache_dir ++ [fastName name ++ ".tar.gz"]

/-- `locate_model_file`'s loop over candidate file names; `all` is the full
caller-supplied list, kept for the final error message. -/
def locateGo (fs : FS) (model_dir : FsPath) (all : List String) :
    List String → Except PyErr FsPath
  | [] => .error (.valueError ("Could not find either of " ++
      String.intercalate ", " all ++ " in " ++ pathToString model_dir))
  | n :: rest =>
    match (fs.rglob model_dir n).filter (fun p => fs.isFile p) with
    | p :: _ => .ok p
    | [] => locateGo fs model_dir all rest

/-- `locate_model_file(model_dir, file_names)`. -/
def locate_model_file (fs : FS) (model_dir : FsPath) (file_names : List String) :
    Except PyErr FsPath :=
  if fs.isDir model_dir then locateGo fs model_dir file_names file_names
  else .error (.valueError ("Provided model path " ++ pathToString model_dir ++
    " is not a directory."))

/-- The credentials hint raised on HTTP 403. -/
def authErrorMsg : String :=
  "Authentication Error: You do not have permission to access this resource. " ++
  "Please check your credentials."

/-- `ModelManagement.download_file_from_gcs(url, output_path)`. -/
def download_file_from_gcs (w : World) (fs : FS) (url : String)
    (output_path : FsPath) : FS × Except PyErr FsPath :=
  if fs.pathExists output_path then (fs, .ok output_path)
  else
    let response := w.net url
    if response.status = 403 then (fs, .error (.permissionError authErrorMsg))
    else (fs.writeFile output_path response.body, .ok output_path)

/-- `ModelManagement.decompress_to_cache(targz_path, cache_dir)`. -/
def decompress_to_cache (w : World) (fs : FS) (targz_path cache_dir : FsPath) :
    FS × Except PyErr FsPath :=
  match fs.getFile targz_path with
  | none =>
    (fs, .error (.valueError (pathToString targz_path ++
      " does not exist or is not a file.")))
  | some content =>
    if strEndsWith (pathToString targz_path) ".tar.gz" then
      match w.tar content with
      | none =>
        let fs1 := if strContainsTmp (pathToString cache_dir) then fs.rmtree cache_dir
          else fs
        (fs1, .error (.valueError ("An error occurred while decompressing " ++
          pathToString targz_path)))
      | some entries => (fs.extractAll cache_dir entries, .ok cache_dir)
    else
      (fs, .error (.valueError (pathToString targz_path ++ " is not a .tar.gz file.")))

/-- `ModelManagement.retrieve_model_gcs(model_name, source_url, cache_dir)`. -/
def retrieve_model_gcs (w : World) (fs : FS) (model_name source_url : String)
    (cache_dir : FsPath) : FS × Except PyErr FsPath :=
  let model_tmp_dir := stagingDir cache_dir model_name
  let model_dir := finalDir cache_dir model_name
  if fs.pathExists model_dir && decide (0 < fs.globCount model_dir) then
    (fs, .ok model_dir)
  else
    let fs1 := if fs.pathExists model_tmp_dir then fs.rmtree model_tmp_dir else fs
    let fs2 := fs1.mkdirParents (tmpArea cache_dir)
    match download_file_from_gcs w fs2 source_url (tarFile cache_dir model_name) with
    | (fs3, .error e) => (fs3, .error e)
    | (fs3, .ok _) =>
      match decompress_to_cache w fs3 (tarFile cache_dir model_name) (tmpArea cache_dir) with
      | (fs4, .error e) => (fs4, .error e)
      | (fs4, .ok _) =>
        if fs4.pathExists model_tmp_dir then
          let fs5 := fs4.unlink (tarFile cache_dir model_name)
          (fs5.rename model_tmp_dir model_dir, .ok model_dir)
        else
          (fs4, .error (.assertionError ("Could not find " ++
            pathToString model_tmp_dir ++ " in " ++ pathToString (tmpArea cache_dir))))

/-- An artifact descriptor: the `model` dict with its `sources` mapping. -/
structure ModelDesc where
  model : String
  sources_hf : Option String
  sources_url : Option String
  deriving DecidableEq, Repr

/-- Python truthiness of `dict.get(...)`: present and non-empty. -/
def truthy : Option String → Bool
  | some s => decide (s ≠ "")
  | none => false

/-- `ModelManagement.download_model(model, cache_dir)`. -/
def download_model (w : World) (fs : FS) (m : ModelDesc) (cache_dir : FsPath) :
    FS × Except PyErr FsPath :=
  let tryUrl : FS × Except PyErr FsPath :=
    if truthy m.sources_url then
      retrieve_model_gcs w fs m.model (m.sources_url.getD "") cache_dir
    else
      (fs, .error (.valueError ("Could not download model " ++ m.model ++
        " from any source.")))
  if truthy m.sources_hf then
    match w.hf (m.sources_hf.getD "") (pathToString cache_dir) with
    | .ok p => (fs, .ok (strToPath p))
    | .error e => if caughtByHfFallback e then tryUrl else (fs, .error e)
  else tryUrl

/-! ## Path-level lemmas -/

theorem stripLead_append (p a b : FsPath) : stripLead (p ++ a) (p ++ b) = stripLead a b := by
  induction p with
  | nil => rfl
  | cons x xs ih => simpa [stripLead] using ih

theorem stripLead_of_append (p r : FsPath) : stripLead p (p ++ r) = some r := by
  have h := stripLead_append p [] r
  rwa [List.append_nil] at h

theorem stripLead_self (p : FsPath) : stripLead p p = some [] := by
  have h := stripLead_of_append p []
  rwa [List.append_nil] at h

theorem stripLead_eq_some {p q r : FsPath} (h : stripLead p q = some r) : q = p ++ r := by
  induction p generalizing q with
  | nil => simpa [stripLead] using h
  | cons x xs ih =>
    cases q with
    | nil => simp [stripLead] at h
    | cons y ys =>
      by_cases hxy : x = y
      · subst hxy
        rw [stripLead, if_pos rfl] at h
        simpa using ih h
      · rw [stripLead, if_neg hxy] at h
        cases h

theorem inTreeB_self (p : FsPath) : inTreeB p p = true := by
  simp [inTreeB, stripLead_self]

theorem mem_prefixesOf {q p : FsPath} : q ∈ prefixesOf p ↔ ∃ r, q ++ r = p := by
  induction p generalizing q with
  | nil =>
    simp only [prefixesOf, List.mem_singleton]
    constructor
    · rintro rfl; exact ⟨[], rfl⟩
    · rintro ⟨r, hr⟩
      rcases List.append_eq_nil.mp hr with ⟨rfl, _⟩
      rfl
  | cons x xs ih =>
    cases q with
    | nil =>
      constructor
      · intro _; exact ⟨x :: xs, rfl⟩
      · intro _; simp [prefixesOf]
    | cons y ys =>
      simp only [prefixesOf, List.mem_cons, List.mem_map, List.cons_append]
      constructor
      · rintro (h | ⟨q', hq', heq⟩)
        · cases h
        · rcases ih.mp hq' with ⟨r, hr⟩
          cases heq
          exact ⟨r, by rw [hr]⟩
      · rintro ⟨r, hr⟩
        have hy : y = x := (List.cons.injEq y (ys ++ r) x xs).mp hr |>.1
        have hys : ys ++ r = xs := (List.cons.injEq y (ys ++ r) x xs).mp hr |>.2
        subst hy
        exact Or.inr ⟨ys, ih.mpr ⟨r, hys⟩, rfl⟩

theorem listLeads_self_append (p r : List Char) : listLeads p (p ++ r) = true := by
  induction p with
  | nil => rfl
  | cons a as ih => simp [listLeads, ih]

theorem listLeads_append_right {pat t : List Char} (u : List Char)
    (h : listLeads pat t = true) : listLeads pat (t ++ u) = true := by
  induction pat generalizing t with
  | nil => rfl
  | cons a as ih =>
    cases t with
    | nil => simp [listLeads] at h
    | cons b bs =>
      simp only [listLeads, Bool.and_eq_true, beq_iff_eq] at h
      simp only [List.cons_append, listLeads, Bool.and_eq_true, beq_iff_eq]
      exact ⟨h.1, ih h.2⟩

theorem strEndsWith_append (a b : String) : strEndsWith (a ++ b) b = true := by
  unfold strEndsWith
  rw [String.data_append, List.reverse_append]
  exact listLeads_self_append _ _

theorem strEndsWith_prepend {t suf : String} (a : String)
    (h : strEndsWith t suf = true) : strEndsWith (a ++ t) suf = true := by
  unfold strEndsWith at h ⊢
  rw [String.data_append, List.reverse_append]
  exact listLeads_append_right _ h

theorem strEndsWith_pathToString {p : FsPath} {s suf : String}
    (h : strEndsWith s suf = true) :
    strEndsWith (pathToString (p ++ [s])) suf = true := by
  induction p with
  | nil => simpa [pathToString] using h
  | cons x xs ih =>
    cases hxs : xs ++ [s] with
    | nil => simp at hxs
    | cons y ys =>
      rw [List.cons_append, hxs]
      rw [hxs] at ih
      show strEndsWith (x ++ "/" ++ pathToString (y :: ys)) suf = true
      exact strEndsWith_prepend (x ++ "/") ih

/-! ## Name-disjointness facts about the cache layout -/

theorem fastName_ne_tmp (name : String) : fastName name ≠ "tmp" := by
  intro h
  have hl := congrArg String.length h
  rw [fastName, String.length_append] at hl
  have h5 : ("fast-" : String).length = 5 := by decide
  have h3 : ("tmp" : String).length = 3 := by decide
  rw [h5, h3] at hl
  omega

theorem fastNameTar_ne_tmp (name : String) : fastName name ++ ".tar.gz" ≠ "tmp" := by
  intro h
  have hl := congrArg String.length h
  rw [String.length_append] at hl
  have h7 : (".tar.gz" : String).length = 7 := by decide
  have h3 : ("tmp" : String).length = 3 := by decide
  rw [h7, h3] at hl
  omega

theorem fastName_ne_fastNameTar (name : String) :
    fastName name ≠ fastName name ++ ".tar.gz" := by
  intro h
  have hl := congrArg String.length h
  rw [String.length_append] at hl
  have h7 : (".tar.gz" : String).length = 7 := by decide
  rw [h7] at hl
  omega

theorem finalDir_notin_tmpTree {cd : FsPath} {name : String} {r t : FsPath}
    (h : finalDir cd name ++ t = tmpArea cd ++ r) : False := by
  unfold finalDir tmpArea at h
  rw [List.append_assoc, List.append_assoc] at h
  have h2 := List.append_cancel_left h
  rw [List.singleton_append, List.singleton_append] at h2
  exact fastName_ne_tmp name (List.head_eq_of_cons_eq h2)

theorem finalDir_notin_tmpArea {cd : FsPath} {name : String} {r : FsPath}
    (h : finalDir cd name ++ r = tmpArea cd) : False :=
  finalDir_notin_tmpTree (show finalDir cd name ++ r = tmpArea cd ++ [] by
    rw [List.append_nil]; exact h)

theorem tarFile_notin_tmpTree {cd : FsPath} {name : String} {r t : FsPath}
    (h : tarFile cd name ++ t = tmpArea cd ++ r) : False := by
  unfold tarFile tmpArea at h
  rw [List.append_assoc, List.append_assoc] at h
  have h2 := List.append_cancel_left h
  rw [List.singleton_append, List.singleton_append] at h2
  exact fastNameTar_ne_tmp name (List.head_eq_of_cons_eq h2)

theorem tarFile_notin_tmpArea {cd : FsPath} {name : String} {r : FsPath}
    (h : tarFile cd name ++ r = tmpArea cd) : False :=
  tarFile_notin_tmpTree (show tarFile cd name ++ r = tmpArea cd ++ [] by
    rw [List.append_nil]; exact h)

theorem finalDir_ne_tarFile (cd : FsPath) (name : String) :
    finalDir cd name ≠ tarFile cd name := by
  intro h
  unfold finalDir tarFile at h
  have h2 := List.append_cancel_left h
  exact fastName_ne_fastNameTar name (List.head_eq_of_cons_eq h2)

theorem stagingDir_ne_tarFile (cd : FsPath) (name : String) :
    stagingDir cd name ≠ tarFile cd name := by
  intro h
  have hl := congrArg List.length h
  simp [stagingDir, tmpArea, tarFile, List.length_append] at hl

theorem tarFile_endsWith (cd : FsPath) (name : String) :
    strEndsWith (pathToString (tarFile cd name)) ".tar.gz" = true := by
  unfold tarFile
  exact strEndsWith_pathToString (strEndsWith_append (fastName name) ".tar.gz")

/-! ## Filesystem-state lemmas -/

theorem findKey_isSome {l : List (FsPath × String)} {q : FsPath} :
    ((l.find? fun e => decide (e.1 = q)).map (·.2)).isSome = true ↔
      q ∈ l.map Prod.fst := by
  induction l with
  | nil => simp
  | cons e l ih =>
    by_cases h : e.1 = q
    · rw [List.find?_cons_of_pos _ (by simp [h])]
      simp [h]
    · rw [List.find?_cons_of_neg _ (by simp [h])]
      rw [List.map_cons, List.mem_cons, ih]
      constructor
      · exact Or.inr
      · rintro (h' | h')
        · exact absurd h'.symm h
        · exact h'

theorem isFile_iff {fs : FS} {q : FsPath} :
    fs.isFile q = true ↔ q ∈ fs.files.map Prod.fst := by
  unfold FS.isFile FS.getFile
  exact findKey_isSome

theorem isDir_iff {fs : FS} {q : FsPath} : fs.isDir q = true ↔ q ∈ fs.dirs := by
  simp [FS.isDir]

theorem pathExists_iff {fs : FS} {q : FsPath} :
    fs.pathExists q = true ↔ q ∈ fs.dirs ∨ q ∈ fs.files.map Prod.fst := by
  rw [FS.pathExists, Bool.or_eq_true, isDir_iff, isFile_iff]

theorem pathExists_rmtree {fs : FS} {p q : FsPath}
    (h : (fs.rmtree p).pathExists q = true) : fs.pathExists q = true := by
  rw [pathExists_iff] at h ⊢
  rcases h with h | h
  · exact Or.inl (List.mem_of_mem_filter h)
  · rcases List.mem_map.mp h with ⟨e, he, hfst⟩
    exact Or.inr (List.mem_map.mpr ⟨e, List.mem_of_mem_filter he, hfst⟩)

theorem pathExists_rmtree_false {fs : FS} {p q : FsPath}
    (h : fs.pathExists q = false) : (fs.rmtree p).pathExists q = false := by
  cases hq : (fs.rmtree p).pathExists q with
  | false => rfl
  | true => rw [pathExists_rmtree hq] at h; cases h

theorem pathExists_rmtree_inside {fs : FS} {p q : FsPath}
    (h : inTreeB q p = true) : (fs.rmtree p).pathExists q = false := by
  cases hq : (fs.rmtree p).pathExists q with
  | false => rfl
  | true =>
    exfalso
    rw [pathExists_iff] at hq
    rcases hq with hq | hq
    · have hp := (List.mem_filter.mp hq).2
      rw [h] at hp
      cases hp
    · rcases List.mem_map.mp hq with ⟨e, he, hfst⟩
      have hp := (List.mem_filter.mp he).2
      rw [hfst, h] at hp
      cases hp

theorem pathExists_mkdirParents {fs : FS} {p q : FsPath}
    (h : (fs.mkdirParents p).pathExists q = true) :
    fs.pathExists q = true ∨ ∃ r, q ++ r = p := by
  rw [pathExists_iff] at h
  rcases h with h | h
  · rcases List.mem_append.mp h with h | h
    · exact Or.inl (pathExists_iff.mpr (Or.inl h))
    · exact Or.inr (mem_prefixesOf.mp (List.mem_of_mem_filter h))
  · exact Or.inl (pathExists_iff.mpr (Or.inr h))

theorem pathExists_mkdirParents_false {fs : FS} {p q : FsPath}
    (h : fs.pathExists q = false) (hnp : ∀ r, q ++ r = p → False) :
    (fs.mkdirParents p).pathExists q = false := by
  cases hq : (fs.mkdirParents p).pathExists q with
  | false => rfl
  | true =>
    exfalso
    rcases pathExists_mkdirParents hq with h' | ⟨r, hr⟩
    · rw [h'] at h; cases h
    · exact hnp r hr

theorem pathExists_mkdirParents_self (fs : FS) (p : FsPath) :
    (fs.mkdirParents p).pathExists p = true := by
  rw [pathExists_iff]
  left
  show p ∈ fs.dirs ++ (prefixesOf p).filter fun d => !decide (d ∈ fs.dirs)
  rw [List.mem_append]
  by_cases h : p ∈ fs.dirs
  · exact Or.inl h
  · refine Or.inr (List.mem_filter.mpr ⟨mem_prefixesOf.mpr ⟨[], List.append_nil p⟩, ?_⟩)
    simp [h]

theorem pathExists_mkdirParents_mono {fs : FS} {p q : FsPath}
    (h : fs.pathExists q = true) : (fs.mkdirParents p).pathExists q = true := by
  rw [pathExists_iff] at h ⊢
  rcases h with h | h
  · exact Or.inl (List.mem_append.mpr (Or.inl h))
  · exact Or.inr h

theorem pathExists_writeFile {fs : FS} {p q : FsPath} {c : String}
    (h : (fs.writeFile p c).pathExists q = true) :
    q = p ∨ fs.pathExists q = true := by
  rw [pathExists_iff] at h
  simp only [FS.writeFile] at h
  rcases h with h | h
  · exact Or.inr (pathExists_iff.mpr (Or.inl h))
  · rw [List.map_cons, List.mem_cons] at h
    rcases h with h | h
    · exact Or.inl h
    · rcases List.mem_map.mp h with ⟨e, he, hfst⟩
      exact Or.inr (pathExists_iff.mpr (Or.inr
        (List.mem_map.mpr ⟨e, List.mem_of_mem_filter he, hfst⟩)))

theorem pathExists_writeFile_false {fs : FS} {p q : FsPath} {c : String}
    (h : fs.pathExists q = false) (hne : q ≠ p) :
    (fs.writeFile p c).pathExists q = false := by
  cases hq : (fs.writeFile p c).pathExists q with
  | false => rfl
  | true =>
    exfalso
    rcases pathExists_writeFile hq with h' | h'
    · exact hne h'
    · rw [h'] at h; cases h

theorem pathExists_writeFile_mono {fs : FS} {p q : FsPath} {c : String}
    (h : fs.pathExists q = true) : (fs.writeFile p c).pathExists q = true := by
  rw [pathExists_iff] at h ⊢
  simp only [FS.writeFile]
  rcases h with h | h
  · exact Or.inl h
  · right
    rw [List.map_cons, List.mem_cons]
    by_cases hqp : q = p
    · exact Or.inl hqp
    · rcases List.mem_map.mp h with ⟨e, he, hfst⟩
      refine Or.inr (List.mem_map.mpr ⟨e, List.mem_filter.mpr ⟨he, ?_⟩, hfst⟩)
      simp [hfst, hqp]

theorem getFile_writeFile_self (fs : FS) (p : FsPath) (c : String) :
    (fs.writeFile p c).getFile p = some c := by
  unfold FS.writeFile FS.getFile
  rw [List.find?_cons_of_pos _ (by simp)]
  rfl

theorem pathExists_unlink {fs : FS} {p q : FsPath}
    (h : (fs.unlink p).pathExists q = true) : fs.pathExists q = true := by
  rw [pathExists_iff] at h ⊢
  rcases h with h | h
  · exact Or.inl h
  · rcases List.mem_map.mp h with ⟨e, he, hfst⟩
    exact Or.inr (List.mem_map.mpr ⟨e, List.mem_of_mem_filter he, hfst⟩)

theorem pathExists_unlink_false {fs : FS} {p q : FsPath}
    (h : fs.pathExists q = false) : (fs.unlink p).pathExists q = false := by
  cases hq : (fs.unlink p).pathExists q with
  | false => rfl
  | true => rw [pathExists_unlink hq] at h; cases h

theorem pathExists_unlink_of_ne {fs : FS} {p q : FsPath} (hne : q ≠ p)
    (h : fs.pathExists q = true) : (fs.unlink p).pathExists q = true := by
  rw [pathExists_iff] at h ⊢
  rcases h with h | h
  · exact Or.inl h
  · rcases List.mem_map.mp h with ⟨e, he, hfst⟩
    refine Or.inr (List.mem_map.mpr ⟨e, List.mem_filter.mpr ⟨he, ?_⟩, hfst⟩)
    simp [hfst, hne]

theorem rebase_self (s d : FsPath) : rebase s d s = d := by
  simp [rebase, stripLead_self]

theorem pathExists_rename_target {fs : FS} {s d : FsPath}
    (h : fs.pathExists s = true) : (fs.rename s d).pathExists d = true := by
  rw [pathExists_iff] at h ⊢
  rcases h with h | h
  · exact Or.inl (List.mem_map.mpr ⟨s, h, rebase_self s d⟩)
  · rcases List.mem_map.mp h with ⟨e, he, hfst⟩
    right
    rw [FS.rename]
    refine List.mem_map.mpr ⟨(rebase s d e.1, e.2), List.mem_map.mpr ⟨e, he, rfl⟩, ?_⟩
    show rebase s d e.1 = d
    rw [hfst, rebase_self]

theorem pathExists_extractOne {fs : FS} {base : FsPath} {e : Entry} {q : FsPath}
    (h : (fs.extractOne base e).pathExists q = true) :
    fs.pathExists q = true ∨ ∃ r t, q ++ t = base ++ r := by
  cases e with
  | dirE rel =>
    rcases pathExists_mkdirParents h with h | ⟨r, hr⟩
    · exact Or.inl h
    · exact Or.inr ⟨rel, r, hr⟩
  | fileE rel c =>
    rcases pathExists_writeFile h with h | h
    · exact Or.inr ⟨rel, [], by rw [List.append_nil, h]⟩
    · rcases pathExists_mkdirParents h with h | ⟨r, hr⟩
      · exact Or.inl h
      · exact Or.inr ⟨rel.dropLast, r, hr⟩

theorem pathExists_extractAll {fs : FS} {base : FsPath} {es : List Entry} {q : FsPath}
    (h : (fs.extractAll base es).pathExists q = true) :
    fs.pathExists q = true ∨ ∃ r t, q ++ t = base ++ r := by
  induction es generalizing fs with
  | nil => exact Or.inl h
  | cons e es ih =>
    have h' : ((fs.extractOne base e).extractAll base es).pathExists q = true := h
    rcases ih h' with h'' | h''
    · exact pathExists_extractOne h''
    · exact Or.inr h''

theorem pathExists_extractAll_false {fs : FS} {base : FsPath} {es : List Entry}
    {q : FsPath} (h : fs.pathExists q = false)
    (hnp : ∀ r t, q ++ t = base ++ r → False) :
    (fs.extractAll base es).pathExists q = false := by
  cases hq : (fs.extractAll base es).pathExists q with
  | false => rfl
  | true =>
    exfalso
    rcases pathExists_extractAll hq with h' | ⟨r, t, hrt⟩
    · rw [h'] at h; cases h
    · exact hnp r t hrt

theorem pathExists_extractOne_mono {fs : FS} {base : FsPath} {e : Entry} {q : FsPath}
    (h : fs.pathExists q = true) : (fs.extractOne base e).pathExists q = true := by
  cases e with
  | dirE rel => exact pathExists_mkdirParents_mono h
  | fileE rel c => exact pathExists_writeFile_mono (pathExists_mkdirParents_mono h)

theorem pathExists_extractAll_mono {fs : FS} {base : FsPath} {es : List Entry}
    {q : FsPath} (h : fs.pathExists q = true) :
    (fs.extractAll base es).pathExists q = true := by
  induction es generalizing fs with
  | nil => exact h
  | cons e es ih => exact ih (pathExists_extractOne_mono h)

theorem extractAll_creates {fs : FS} {base : FsPath} {es : List Entry} {rel : FsPath}
    (h : Entry.dirE rel ∈ es) :
    (fs.extractAll base es).pathExists (base ++ rel) = true := by
  induction es generalizing fs with
  | nil => cases h
  | cons e es ih =>
    rcases List.mem_cons.mp h with he | he
    · show ((fs.extractOne base e).extractAll base es).pathExists (base ++ rel) = true
      rw [← he]
      exact pathExists_extractAll_mono (pathExists_mkdirParents_self fs (base ++ rel))
    · exact ih he

/-! ## Pipeline preservation lemmas -/

theorem download_preserves {w : World} {fs : FS} {url : String} {out q : FsPath}
    (habs : fs.pathExists q = false) (hne : q ≠ out) :
    ((download_file_from_gcs w fs url out).1).pathExists q = false := by
  simp only [download_file_from_gcs]
  split
  · exact habs
  · split
    · exact habs
    · exact pathExists_writeFile_false habs hne

theorem decompress_preserves {w : World} {fs : FS} {tz cdp q : FsPath}
    (habs : fs.pathExists q = false)
    (hnotin : ∀ r t, q ++ t = cdp ++ r → False) :
    ((decompress_to_cache w fs tz cdp).1).pathExists q = false := by
  simp only [decompress_to_cache]
  split
  · exact habs
  · split
    · split
      · split
        · exact pathExists_rmtree_false habs
        · exact habs
      · exact pathExists_extractAll_false habs hnotin
    · exact habs

/-- Evaluation of `retrieve_model_gcs` past a cache miss: the guard is false, so
the function runs the staging pipeline. -/
theorem retrieve_model_gcs_eq (w : World) (fs : FS) (name url : String) (cd : FsPath)
    (hmiss : (fs.pathExists (finalDir cd name) &&
      decide (0 < fs.globCount (finalDir cd name))) = false) :
    retrieve_model_gcs w fs name url cd =
      (match download_file_from_gcs w
          ((if fs.pathExists (stagingDir cd name) then fs.rmtree (stagingDir cd name)
            else fs).mkdirParents (tmpArea cd)) url (tarFile cd name) with
       | (fs3, .error e) => (fs3, .error e)
       | (fs3, .ok _) =>
         match decompress_to_cache w fs3 (tarFile cd name) (tmpArea cd) with
         | (fs4, .error e) => (fs4, .error e)
         | (fs4, .ok _) =>
           if fs4.pathExists (stagingDir cd name) then
             ((fs4.unlink (tarFile cd name)).rename (stagingDir cd name) (finalDir cd name),
              .ok (finalDir cd name))
           else
             (fs4, .error (.assertionError ("Could not find " ++
               pathToString (stagingDir cd name) ++ " in " ++
               pathToString (tmpArea cd))))) := by
  simp only [retrieve_model_gcs]
  rw [hmiss]
  rfl

/-! ## The claims -/

/-- C1: for every archive-source acquisition starting from a state where the
final directory `cache_root/fast-<basename(name)>` is absent, if any step
before the final rename raises an error then the final directory is still
absent afterwards, and on success the final directory exists, the returned
path is the final directory, and the result state arises from a state where
the final directory was still absent by the single rename of the staging
directory onto the final directory — the one atomic promotion step. -/
theorem c1_retrieve_final_dir_atomic (w : World) (fs : FS) (name url : String)
    (cd : FsPath) (habs : fs.pathExists (finalDir cd name) = false) :
    (∀ e, (retrieve_model_gcs w fs name url cd).2 = .error e →
      (retrieve_model_gcs w fs name url cd).1.pathExists (finalDir cd name) = false) ∧
    (∀ p, (retrieve_model_gcs w fs name url cd).2 = .ok p →
      p = finalDir cd name ∧
      (retrieve_model_gcs w fs name url cd).1.pathExists (finalDir cd name) = true ∧
      ∃ mid : FS, mid.pathExists (finalDir cd name) = false ∧
        (retrieve_model_gcs w fs name url cd).1 =
          mid.rename (stagingDir cd name) (finalDir cd name)) := by
  have hg : (fs.pathExists (finalDir cd name) &&
      decide (0 < fs.globCount (finalDir cd name))) = false := by
    rw [habs]; rfl
  have h1 : (if fs.pathExists (stagingDir cd name) then fs.rmtree (stagingDir cd name)
      else fs).pathExists (finalDir cd name) = false := by
    split
    · exact pathExists_rmtree_false habs
    · exact habs
  have h2 : ((if fs.pathExists (stagingDir cd name) then fs.rmtree (stagingDir cd name)
      else fs).mkdirParents (tmpArea cd)).pathExists (finalDir cd name) = false :=
    pathExists_mkdirParents_false h1 (fun r hr => finalDir_notin_tmpArea hr)
  rcases hdl : download_file_from_gcs w
      ((if fs.pathExists (stagingDir cd name) then fs.rmtree (stagingDir cd name)
        else fs).mkdirParents (tmpArea cd)) url (tarFile cd name) with ⟨fs3, r3⟩
  have h3 : fs3.pathExists (finalDir cd name) = false := by
    have hp := @download_preserves w
      ((if fs.pathExists (stagingDir cd name) then fs.rmtree (stagingDir cd name)
        else fs).mkdirParents (tmpArea cd)) url (tarFile cd name) (finalDir cd name)
      h2 (finalDir_ne_tarFile cd name)
    rw [hdl] at hp
    exact hp
  cases r3 with
  | error e =>
    have hr : retrieve_model_gcs w fs name url cd = (fs3, .error e) := by
      simp only [retrieve_model_gcs_eq w fs name url cd hg, hdl]
    rw [hr]
    constructor
    · intro e' _
      exact h3
    · intro p hp
      simp at hp
  | ok v =>
    rcases hdc : decompress_to_cache w fs3 (tarFile cd name) (tmpArea cd) with ⟨fs4, r4⟩
    have h4 : fs4.pathExists (finalDir cd name) = false := by
      have hp := @decompress_preserves w fs3 (tarFile cd name) (tmpArea cd)
        (finalDir cd name) h3 (fun r t h => finalDir_notin_tmpTree h)
      rw [hdc] at hp
      exact hp
    cases r4 with
    | error e =>
      have hr : retrieve_model_gcs w fs name url cd = (fs4, .error e) := by
        simp only [retrieve_model_gcs_eq w fs name url cd hg, hdl, hdc]
      rw [hr]
      constructor
      · intro e' _
        exact h4
      · intro p hp
        simp at hp
    | ok v4 =>
      by_cases hstag : fs4.pathExists (stagingDir cd name) = true
      · have hr : retrieve_model_gcs w fs name url cd =
            ((fs4.unlink (tarFile cd name)).rename (stagingDir cd name) (finalDir cd name),
             .ok (finalDir cd name)) := by
          simp only [retrieve_model_gcs_eq w fs name url cd hg, hdl, hdc, hstag, if_true]
        rw [hr]
        constructor
        · intro e' he'
          simp at he'
        · intro p hp
          have hpf : p = finalDir cd name := by
            simpa using hp.symm
          refine ⟨hpf, ?_, ⟨fs4.unlink (tarFile cd name), pathExists_unlink_false h4, rfl⟩⟩
          exact pathExists_rename_target
            (pathExists_unlink_of_ne (stagingDir_ne_tarFile cd name) hstag)
      · have hstagf : fs4.pathExists (stagingDir cd name) = false :=
          Bool.not_eq_true _ ▸ Bool.of_not_eq_true hstag
        have hr : retrieve_model_gcs w fs name url cd =
            (fs4, .error (.assertionError ("Could not find " ++
              pathToString (stagingDir cd name) ++ " in " ++
              pathToString (tmpArea cd)))) := by
          simp only [retrieve_model_gcs_eq w fs name url cd hg, hdl, hdc, hstagf,
            Bool.false_eq_true, if_false]
        rw [hr]
        constructor
        · intro e' _
          exact h4
        · intro p hp
          simp at hp

/-- A concrete world: one archive URL serving body `"B"`, which decodes to an
archive holding exactly the directory `fast-m`; the hub collaborator raises
`PermissionError`. -/
def cxWorld : World :=
  { net := fun _ => { status := 200, body := "B" },
    tar := fun c => if c = "B" then some [.dirE ["fast-m"]] else none,
    hf := fun _ _ => .error (.permissionError "denied") }

/-- A concrete filesystem: just the cache root `c`, no cached model. -/
def cxFS : FS := { dirs := [["c"]], files := [] }

/-- Witness for C1 at a concrete cache-miss acquisition. -/
theorem c1_witness :
    cxFS.pathExists (finalDir ["c"] "m") = false ∧
    ((∀ e, (retrieve_model_gcs cxWorld cxFS "m" "u" ["c"]).2 = .error e →
      (retrieve_model_gcs cxWorld cxFS "m" "u" ["c"]).1.pathExists (finalDir ["c"] "m") = false) ∧
    (∀ p, (retrieve_model_gcs cxWorld cxFS "m" "u" ["c"]).2 = .ok p →
      p = finalDir ["c"] "m" ∧
      (retrieve_model_gcs cxWorld cxFS "m" "u" ["c"]).1.pathExists (finalDir ["c"] "m") = true ∧
      ∃ mid : FS, mid.pathExists (finalDir ["c"] "m") = false ∧
        (retrieve_model_gcs cxWorld cxFS "m" "u" ["c"]).1 =
          mid.rename (stagingDir ["c"] "m") (finalDir ["c"] "m"))) :=
  ⟨by decide, c1_retrieve_final_dir_atomic cxWorld cxFS "m" "u" ["c"] (by decide)⟩

theorem globCount_rmtree_le (fs : FS) (p q : FsPath) :
    (fs.rmtree p).globCount q ≤ fs.globCount q := by
  have s1 : List.Sublist ((fs.rmtree p).dirs) fs.dirs := List.filter_sublist _
  have s2 : List.Sublist ((fs.rmtree p).files.map Prod.fst) (fs.files.map Prod.fst) :=
    List.Sublist.map Prod.fst (List.filter_sublist _)
  have s3 : List.Sublist ((fs.rmtree p).nodes) fs.nodes := List.Sublist.append s1 s2
  have s4 := List.Sublist.filter (fun x => isChildB x q) s3
  exact List.Sublist.length_le s4

/-- C2: if the final directory exists and holds at least one entry,
`retrieve_model_gcs` returns it immediately with the filesystem unchanged, for
every network/archive world — so a second call on the resulting state (under
any world `w2`, i.e. with no network activity observable) returns the same
path again. -/
theorem c2_cache_hit_idempotent (w w2 : World) (fs : FS) (name url : String)
    (cd : FsPath) (hex : fs.pathExists (finalDir cd name) = true)
    (hcnt : 0 < fs.globCount (finalDir cd name)) :
    retrieve_model_gcs w fs name url cd = (fs, .ok (finalDir cd name)) ∧
    retrieve_model_gcs w2 fs name url cd = (fs, .ok (finalDir cd name)) := by
  have hg : (fs.pathExists (finalDir cd name) &&
      decide (0 < fs.globCount (finalDir cd name))) = true := by
    rw [hex]
    simpa using hcnt
  constructor <;>
  · simp only [retrieve_model_gcs]
    rw [hg]
    rfl

/-- A concrete filesystem with a populated cache entry `c/fast-m`. -/
def cxFSHit : FS :=
  { dirs := [["c"], ["c", "fast-m"]],
    files := [(["c", "fast-m", "f.onnx"], "W")] }

/-- A concrete world whose transport always answers 403 and whose hub
collaborator raises `TypeError`. -/
def cxWorld403 : World :=
  { net := fun _ => { status := 403, body := "" },
    tar := fun _ => none,
    hf := fun _ _ => .error (.typeError "t") }

/-- Witness for C2: a populated cache entry is returned unchanged under two
different worlds, one of which rejects every request. -/
theorem c2_witness :
    cxFSHit.pathExists (finalDir ["c"] "m") = true ∧
    0 < cxFSHit.globCount (finalDir ["c"] "m") ∧
    (retrieve_model_gcs cxWorld cxFSHit "m" "u" ["c"] =
      (cxFSHit, .ok (finalDir ["c"] "m")) ∧
     retrieve_model_gcs cxWorld403 cxFSHit "m" "u" ["c"] =
      (cxFSHit, .ok (finalDir ["c"] "m"))) :=
  ⟨by decide, by decide,
    c2_cache_hit_idempotent cxWorld cxWorld403 cxFSHit "m" "u" ["c"]
      (by decide) (by decide)⟩

/-- C8: on a cache miss with a stale staging directory present, the
acquisition behaves exactly as if the stale staging directory had first been
removed (it is never trusted), the removal leaves the staging path absent, and
with a healthy world (tar file absent, transport not 403, archive decoding to
members that include the expected top-level directory) the subsequent
acquisition succeeds with the final directory. -/
theorem c8_stale_staging_removed (w : World) (fs : FS) (name url : String)
    (cd : FsPath)
    (hguard : (fs.pathExists (finalDir cd name) &&
      decide (0 < fs.globCount (finalDir cd name))) = false)
    (hstag : fs.pathExists (stagingDir cd name) = true) :
    retrieve_model_gcs w fs name url cd =
      retrieve_model_gcs w (fs.rmtree (stagingDir cd name)) name url cd ∧
    (fs.rmtree (stagingDir cd name)).pathExists (stagingDir cd name) = false ∧
    (∀ entries, fs.pathExists (tarFile cd name) = false →
      (w.net url).status ≠ 403 →
      w.tar (w.net url).body = some entries →
      Entry.dirE [fastName name] ∈ entries →
      (retrieve_model_gcs w fs name url cd).2 = .ok (finalDir cd name)) := by
  have hstagf : (fs.rmtree (stagingDir cd name)).pathExists (stagingDir cd name) = false :=
    pathExists_rmtree_inside (inTreeB_self _)
  have hguardR : ((fs.rmtree (stagingDir cd name)).pathExists (finalDir cd name) &&
      decide (0 < (fs.rmtree (stagingDir cd name)).globCount (finalDir cd name))) = false := by
    cases hpe : (fs.rmtree (stagingDir cd name)).pathExists (finalDir cd name) with
    | false => rfl
    | true =>
      have hfs : fs.pathExists (finalDir cd name) = true := pathExists_rmtree hpe
      have hc0 : fs.globCount (finalDir cd name) = 0 := by
        rw [hfs] at hguard
        simpa using hguard
      have hcR : (fs.rmtree (stagingDir cd name)).globCount (finalDir cd name) = 0 :=
        Nat.le_zero.mp (hc0 ▸ globCount_rmtree_le fs (stagingDir cd name) (finalDir cd name))
      rw [hcR]
      rfl
  refine ⟨?_, hstagf, ?_⟩
  · rw [retrieve_model_gcs_eq w fs name url cd hguard,
      retrieve_model_gcs_eq w (fs.rmtree (stagingDir cd name)) name url cd hguardR,
      hstag, hstagf]
    rfl
  · intro entries htar hst htdec hentry
    have htar1 : (fs.rmtree (stagingDir cd name)).pathExists (tarFile cd name) = false :=
      pathExists_rmtree_false htar
    have htar2 : ((fs.rmtree (stagingDir cd name)).mkdirParents (tmpArea cd)).pathExists
        (tarFile cd name) = false :=
      pathExists_mkdirParents_false htar1 (fun r hr => tarFile_notin_tmpArea hr)
    have hdl : download_file_from_gcs w
        ((fs.rmtree (stagingDir cd name)).mkdirParents (tmpArea cd)) url (tarFile cd name) =
        (((fs.rmtree (stagingDir cd name)).mkdirParents (tmpArea cd)).writeFile
          (tarFile cd name) (w.net url).body, .ok (tarFile cd name)) := by
      simp only [download_file_from_gcs, htar2, Bool.false_eq_true, if_false, if_neg hst]
    have hget : (((fs.rmtree (stagingDir cd name)).mkdirParents (tmpArea cd)).writeFile
        (tarFile cd name) (w.net url).body).getFile (tarFile cd name) =
        some (w.net url).body :=
      getFile_writeFile_self _ _ _
    have hdc : decompress_to_cache w
        (((fs.rmtree (stagingDir cd name)).mkdirParents (tmpArea cd)).writeFile
          (tarFile cd name) (w.net url).body) (tarFile cd name) (tmpArea cd) =
        ((((fs.rmtree (stagingDir cd name)).mkdirParents (tmpArea cd)).writeFile
          (tarFile cd name) (w.net url).body).extractAll (tmpArea cd) entries,
         .ok (tmpArea cd)) := by
      simp only [decompress_to_cache, hget, tarFile_endsWith cd name, if_true, htdec]
    have hstag4 : ((((fs.rmtree (stagingDir cd name)).mkdirParents (tmpArea cd)).writeFile
        (tarFile cd name) (w.net url).body).extractAll (tmpArea cd) entries).pathExists
        (stagingDir cd name) = true :=
      extractAll_creates hentry
    have hrew : retrieve_model_gcs w fs name url cd =
        (((((fs.rmtree (stagingDir cd name)).mkdirParents (tmpArea cd)).writeFile
            (tarFile cd name) (w.net url).body).extractAll (tmpArea cd) entries).unlink
            (tarFile cd name) |>.rename (stagingDir cd name) (finalDir cd name),
         .ok (finalDir cd name)) := by
      simp only [retrieve_model_gcs_eq w fs name url cd hguard, hstag, if_true, hdl,
        hdc, hstag4]
    rw [hrew]

/-- A concrete filesystem with a stale, populated staging directory and no
final cache entry. -/
def cxFSStale : FS :=
  { dirs := [["c"], ["c", "tmp"], ["c", "tmp", "fast-m"], ["c", "tmp", "fast-m", "junk"]],
    files := [] }

/-- Witness for C8 at a concrete stale-staging state. -/
theorem c8_witness :
    (cxFSStale.pathExists (finalDir ["c"] "m") &&
      decide (0 < cxFSStale.globCount (finalDir ["c"] "m"))) = false ∧
    cxFSStale.pathExists (stagingDir ["c"] "m") = true ∧
    (retrieve_model_gcs cxWorld cxFSStale "m" "u" ["c"] =
      retrieve_model_gcs cxWorld (cxFSStale.rmtree (stagingDir ["c"] "m")) "m" "u" ["c"] ∧
    (cxFSStale.rmtree (stagingDir ["c"] "m")).pathExists (stagingDir ["c"] "m") = false ∧
    (∀ entries, cxFSStale.pathExists (tarFile ["c"] "m") = false →
      (cxWorld.net "u").status ≠ 403 →
      cxWorld.tar (cxWorld.net "u").body = some entries →
      Entry.dirE [fastName "m"] ∈ entries →
      (retrieve_model_gcs cxWorld cxFSStale "m" "u" ["c"]).2 = .ok (finalDir ["c"] "m"))) :=
  ⟨by decide, by decide,
    c8_stale_staging_removed cxWorld cxFSStale "m" "u" ["c"] (by decide) (by decide)⟩

/-- C6: a 403 transport answer on a fresh download raises the distinct
`PermissionError` carrying the credentials hint, and no destination file is
written (the state is returned unchanged). -/
theorem c6_forbidden_raises_permission_error (w : World) (fs : FS) (url : String)
    (out : FsPath) (habs : fs.pathExists out = false)
    (h403 : (w.net url).status = 403) :
    download_file_from_gcs w fs url out = (fs, .error (.permissionError authErrorMsg)) := by
  simp only [download_file_from_gcs, habs, Bool.false_eq_true, if_false, h403, if_true]

/-- Witness for C6 at a concrete 403 world. -/
theorem c6_witness :
    cxFS.pathExists ["c", "f"] = false ∧
    (cxWorld403.net "u").status = 403 ∧
    download_file_from_gcs cxWorld403 cxFS "u" ["c", "f"] =
      (cxFS, .error (.permissionError authErrorMsg)) :=
  ⟨by decide, by decide,
    c6_forbidden_raises_permission_error cxWorld403 cxFS "u" ["c", "f"]
      (by decide) (by decide)⟩

/-- C9: any transport status other than 403 (404 and 5xx included) raises no
error: the response body is written to the destination file and the
destination path is returned as a success. -/
theorem c9_non403_writes_body (w : World) (fs : FS) (url : String) (out : FsPath)
    (habs : fs.pathExists out = false) (hst : (w.net url).status ≠ 403) :
    download_file_from_gcs w fs url out =
      (fs.writeFile out (w.net url).body, .ok out) := by
  simp only [download_file_from_gcs, habs, Bool.false_eq_true, if_false, if_neg hst]

/-- A concrete world whose transport always answers 404 with an error page
body, and whose hub collaborator raises `RepositoryNotFoundError`. -/
def cxWorld404 : World :=
  { net := fun _ => { status := 404, body := "oops" },
    tar := fun _ => none,
    hf := fun _ _ => .error (.repositoryNotFoundError "nf") }

/-- Witness for C9 at a concrete 404 world: the error page body is written. -/
theorem c9_witness :
    cxFS.pathExists ["c", "f"] = false ∧
    (cxWorld404.net "u").status ≠ 403 ∧
    download_file_from_gcs cxWorld404 cxFS "u" ["c", "f"] =
      (cxFS.writeFile ["c", "f"] "oops", .ok ["c", "f"]) :=
  ⟨by decide, by decide,
    c9_non403_writes_body cxWorld404 cxFS "u" ["c", "f"] (by decide) (by decide)⟩

/-- A concrete artifact descriptor with both a repository source and an
archive source. -/
def cxDesc : ModelDesc := { model := "m", sources_hf := some "h", sources_url := some "u" }

/-- C3 counterexample: the claim asserts that a `PermissionDenied` condition
raised by the repository attempt is outside the caught set and propagates
without the archive source being attempted.  In Python, however,
`PermissionError` is a subclass of `OSError`, and `EnvironmentError` is an
alias of `OSError`, so `except (EnvironmentError, ...)` catches it: here the
hub collaborator raises `PermissionError`, yet `download_model` does not
propagate it — it falls back to the archive source and succeeds. -/
theorem c3_counterexample :
    caughtByHfFallback (.permissionError "denied") = true ∧
    cxWorld.hf "h" (pathToString ["c"]) = .error (.permissionError "denied") ∧
    download_model cxWorld cxFS cxDesc ["c"] ≠ (cxFS, .error (.permissionError "denied")) ∧
    (download_model cxWorld cxFS cxDesc ["c"]).2 = .ok (finalDir ["c"] "m") := by
  decide

/-- C3 (amended): an exception from the repository attempt whose class is not
`EnvironmentError`/`OSError` (a tree that includes `PermissionError`), not
`RepositoryNotFoundError`, and not `ValueError` — e.g. a `TypeError` — is
propagated to the caller unmodified, with the state untouched and the archive
source never attempted (the result does not depend on the transport or
archive oracles). -/
theorem c3_uncaught_kinds_propagate (w : World) (fs : FS) (m : ModelDesc)
    (cd : FsPath) (e : PyErr) (hhf : truthy m.sources_hf = true)
    (hraise : w.hf (m.sources_hf.getD "") (pathToString cd) = .error e)
    (hkind : caughtByHfFallback e = false) :
    download_model w fs m cd = (fs, .error e) := by
  simp only [download_model, hhf, if_true, hraise, hkind, Bool.false_eq_true, if_false]

/-- Witness for the amended C3 with a concrete `TypeError`. -/
theorem c3_witness :
    truthy cxDesc.sources_hf = true ∧
    caughtByHfFallback (.typeError "t") = false ∧
    download_model cxWorld403 cxFS cxDesc ["c"] = (cxFS, .error (.typeError "t")) :=
  ⟨by decide, by decide,
    c3_uncaught_kinds_propagate cxWorld403 cxFS cxDesc ["c"] (.typeError "t")
      (by decide) (by decide) (by decide)⟩

/-- C4: with both sources present, when the repository attempt raises one of
the recoverable kinds (`EnvironmentError`, `RepositoryNotFoundError`,
`ValueError`) the error is not propagated and `download_model` returns exactly
the archive-source result, success or failure, unmodified. -/
theorem c4_recoverable_fallback_to_archive (w : World) (fs : FS) (m : ModelDesc)
    (cd : FsPath) (e : PyErr) (url : String) (hhf : truthy m.sources_hf = true)
    (hurl : m.sources_url = some url) (hune : url ≠ "")
    (hraise : w.hf (m.sources_hf.getD "") (pathToString cd) = .error e)
    (hkind : caughtByHfFallback e = true) :
    download_model w fs m cd = retrieve_model_gcs w fs m.model url cd := by
  have htu2 : truthy (some url) = true := by
    simp [truthy, hune]
  simp only [download_model, hhf, if_true, hraise, hkind, hurl, htu2, Option.getD_some]

/-- Witness for C4 with a concrete repository-not-found failure. -/
theorem c4_witness :
    truthy cxDesc.sources_hf = true ∧
    caughtByHfFallback (.repositoryNotFoundError "nf") = true ∧
    download_model cxWorld404 cxFS cxDesc ["c"] =
      retrieve_model_gcs cxWorld404 cxFS "m" "u" ["c"] :=
  ⟨by decide, by decide,
    c4_recoverable_fallback_to_archive cxWorld404 cxFS cxDesc ["c"]
      (.repositoryNotFoundError "nf") "u" (by decide) (by decide) (by decide)
      (by decide) (by decide)⟩

/-- The spec's wording for C5, for comparison with the code: the destination
path contains `tmp` as a whole path segment. -/
def specTmpSegment (p : FsPath) : Bool := decide ("tmp" ∈ p)

/-- A filesystem whose destination directory name merely contains `tmp` as a
substring (`xtmpx`), plus a corrupt archive file. -/
def cxFSBad : FS := { dirs := [["xtmpx"]], files := [(["a.tar.gz"], "BAD")] }

/-- C5 counterexample: the claim says a destination whose path does not
contain the literal segment `tmp` is left untouched on extraction failure.
The code checks substring containment (`"tmp" in cache_dir`), so the
destination `xtmpx` — no `tmp` segment, but `tmp` as a substring — is
recursively removed before the error is raised, contradicting the claim. -/
theorem c5_counterexample :
    specTmpSegment ["xtmpx"] = false ∧
    cxFSBad.pathExists ["xtmpx"] = true ∧
    (decompress_to_cache cxWorld403 cxFSBad ["a.tar.gz"] ["xtmpx"]).1.pathExists
      ["xtmpx"] = false ∧
    (decompress_to_cache cxWorld403 cxFSBad ["a.tar.gz"] ["xtmpx"]).2 =
      .error (.valueError "An error occurred while decompressing a.tar.gz") := by
  decide

/-- C5 (amended): on a corrupt archive, if the destination path's string
rendering contains `tmp` as a substring (the code's criterion), the
destination is recursively removed — every path at or below it is gone —
before the wrapped error is raised; if the string does not contain `tmp`
anywhere, the state is returned untouched with the same error. -/
theorem c5_cleanup_on_substring_tmp (w : World) (fs : FS) (targz dest : FsPath)
    (c : String) (hfile : fs.getFile targz = some c)
    (hsuf : strEndsWith (pathToString targz) ".tar.gz" = true)
    (hcorrupt : w.tar c = none) :
    (strContainsTmp (pathToString dest) = true →
      (∀ q, inTreeB q dest = true →
        (decompress_to_cache w fs targz dest).1.pathExists q = false) ∧
      (decompress_to_cache w fs targz dest).2 =
        .error (.valueError ("An error occurred while decompressing " ++
          pathToString targz))) ∧
    (strContainsTmp (pathToString dest) = false →
      decompress_to_cache w fs targz dest =
        (fs, .error (.valueError ("An error occurred while decompressing " ++
          pathToString targz)))) := by
  constructor
  · intro htmp
    have hr : decompress_to_cache w fs targz dest =
        (fs.rmtree dest, .error (.valueError ("An error occurred while decompressing " ++
          pathToString targz))) := by
      simp only [decompress_to_cache, hfile, hsuf, if_true, hcorrupt, htmp]
    rw [hr]
    exact ⟨fun q hq => pathExists_rmtree_inside hq, rfl⟩
  · intro htmp
    simp only [decompress_to_cache, hfile, hsuf, if_true, hcorrupt, htmp,
      Bool.false_eq_true, if_false]

/-- A filesystem with a populated staging destination under `c/tmp` and a
corrupt archive file. -/
def cxFSBadTmp : FS :=
  { dirs := [["c"], ["c", "tmp"], ["c", "tmp", "z"]],
    files := [(["a.tar.gz"], "BAD")] }

/-- Witness for the amended C5 at a destination under a real `tmp` segment. -/
theorem c5_witness :
    cxFSBadTmp.getFile ["a.tar.gz"] = some "BAD" ∧
    strEndsWith (pathToString ["a.tar.gz"]) ".tar.gz" = true ∧
    cxWorld403.tar "BAD" = none ∧
    ((strContainsTmp (pathToString ["c", "tmp"]) = true →
      (∀ q, inTreeB q ["c", "tmp"] = true →
        (decompress_to_cache cxWorld403 cxFSBadTmp ["a.tar.gz"] ["c", "tmp"]).1.pathExists
          q = false) ∧
      (decompress_to_cache cxWorld403 cxFSBadTmp ["a.tar.gz"] ["c", "tmp"]).2 =
        .error (.valueError ("An error occurred while decompressing " ++
          pathToString ["a.tar.gz"]))) ∧
    (strContainsTmp (pathToString ["c", "tmp"]) = false →
      decompress_to_cache cxWorld403 cxFSBadTmp ["a.tar.gz"] ["c", "tmp"] =
        (cxFSBadTmp, .error (.valueError ("An error occurred while decompressing " ++
          pathToString ["a.tar.gz"]))))) :=
  ⟨by decide, by decide, by decide,
    c5_cleanup_on_substring_tmp cxWorld403 cxFSBadTmp ["a.tar.gz"] ["c", "tmp"] "BAD"
      (by decide) (by decide) (by decide)⟩

/-- The candidate file name `n` has at least one regular-file match under
`dir` — the emptiness test the locator's loop performs. -/
def hasMatch (fs : FS) (dir : FsPath) (n : String) : Bool :=
  decide (((fs.rglob dir n).filter fun p => fs.isFile p) ≠ [])

theorem mem_rglob_filtered {fs : FS} {dir : FsPath} {n : String} {p : FsPath}
    (h : p ∈ (fs.rglob dir n).filter fun q => fs.isFile q) :
    fs.isFile p = true ∧ underB p dir = true ∧ p.getLastD "" = n := by
  have h1 := List.mem_filter.mp h
  have h2 := List.mem_filter.mp h1.1
  have h3 := h2.2
  rw [Bool.and_eq_true] at h3
  exact ⟨h1.2, h3.1, of_decide_eq_true h3.2⟩

theorem locateGo_spec (fs : FS) (dir : FsPath) (all : List String) :
    ∀ rest : List String,
      (∀ n, rest.find? (hasMatch fs dir) = some n →
        ∃ p, locateGo fs dir all rest = .ok p ∧ fs.isFile p = true ∧
          underB p dir = true ∧ p.getLastD "" = n) ∧
      (rest.find? (hasMatch fs dir) = none →
        locateGo fs dir all rest = .error (.valueError ("Could not find either of " ++
          String.intercalate ", " all ++ " in " ++ pathToString dir))) := by
  intro rest
  induction rest with
  | nil =>
    constructor
    · intro n hn; cases hn
    · intro _; rfl
  | cons m rest ih =>
    cases hm : (fs.rglob dir m).filter (fun q => fs.isFile q) with
    | nil =>
      have hmm : hasMatch fs dir m = false := by simp [hasMatch, hm]
      have hgo : locateGo fs dir all (m :: rest) = locateGo fs dir all rest := by
        simp only [locateGo, hm]
      constructor
      · intro n hn
        rw [List.find?_cons_of_neg _ (by simp [hmm])] at hn
        rw [hgo]
        exact ih.1 n hn
      · intro hn
        rw [List.find?_cons_of_neg _ (by simp [hmm])] at hn
        rw [hgo]
        exact ih.2 hn
    | cons p t =>
      have hmm : hasMatch fs dir m = true := by simp [hasMatch, hm]
      have hgo : locateGo fs dir all (m :: rest) = .ok p := by
        simp only [locateGo, hm]
      constructor
      · intro n hn
        rw [List.find?_cons_of_pos _ (by simp [hmm])] at hn
        cases hn
        have hp : p ∈ (fs.rglob dir m).filter (fun q => fs.isFile q) := by
          rw [hm]; exact List.mem_cons_self p t
        obtain ⟨hf, hu, hl⟩ := mem_rglob_filtered hp
        exact ⟨p, hgo, hf, hu, hl⟩
      · intro hn
        rw [List.find?_cons_of_pos _ (by simp [hmm])] at hn
        cases hn

/-- C7: on a non-directory the locator fails with the distinct not-a-directory
error; on a directory, if some candidate has a regular-file match then for the
earliest such candidate (in caller order) a matching regular file under the
directory bearing that candidate's name is returned, and if no candidate
matches anywhere the locator fails with the error listing every candidate
tried. -/
theorem c7_locate_model_file_spec (fs : FS) (dir : FsPath) (names : List String) :
    (fs.isDir dir = false →
      locate_model_file fs dir names = .error (.valueError
        ("Provided model path " ++ pathToString dir ++ " is not a directory."))) ∧
    (fs.isDir dir = true →
      (∀ n, names.find? (hasMatch fs dir) = some n →
        ∃ p, locate_model_file fs dir names = .ok p ∧ fs.isFile p = true ∧
          underB p dir = true ∧ p.getLastD "" = n) ∧
      (names.find? (hasMatch fs dir) = none →
        locate_model_file fs dir names = .error (.valueError
          ("Could not find either of " ++ String.intercalate ", " names ++
           " in " ++ pathToString dir)))) := by
  constructor
  · intro hd
    simp only [locate_model_file, hd, Bool.false_eq_true, if_false]
  · intro hd
    have hgo : locate_model_file fs dir names = locateGo fs dir names names := by
      simp only [locate_model_file, hd, if_true]
    rw [hgo]
    exact locateGo_spec fs dir names names

/-- A model directory with a nested `onnx` layout and a flat companion file. -/
def cxFSLoc : FS :=
  { dirs := [["d"], ["d", "onnx"]],
    files := [(["d", "onnx", "model.onnx"], "W"), (["d", "x.bin"], "V")] }

/-- Witness for C7 on a concrete directory tree. -/
theorem c7_witness :
    cxFSLoc.isDir ["d"] = true ∧
    ((∀ n, (["model.onnx", "x.bin"]).find? (hasMatch cxFSLoc ["d"]) = some n →
      ∃ p, locate_model_file cxFSLoc ["d"] ["model.onnx", "x.bin"] = .ok p ∧
        cxFSLoc.isFile p = true ∧ underB p ["d"] = true ∧ p.getLastD "" = n) ∧
    ((["model.onnx", "x.bin"]).find? (hasMatch cxFSLoc ["d"]) = none →
      locate_model_file cxFSLoc ["d"] ["model.onnx", "x.bin"] = .error (.valueError
        ("Could not find either of " ++ String.intercalate ", " ["model.onnx", "x.bin"] ++
         " in " ++ pathToString ["d"])))) :=
  ⟨by decide,
    (c7_locate_model_file_spec cxFSLoc ["d"] ["model.onnx", "x.bin"]).2 (by decide)⟩

theorem locateGo_ok_isFile {fs : FS} {dir : FsPath} {all rest : List String} {p : FsPath}
    (h : locateGo fs dir all rest = .ok p) : fs.isFile p = true := by
  induction rest with
  | nil => simp [locateGo] at h
  | cons m rest ih =>
    cases hm : (fs.rglob dir m).filter (fun q => fs.isFile q) with
    | nil =>
      rw [show locateGo fs dir all (m :: rest) = locateGo fs dir all rest from by
        simp only [locateGo, hm]] at h
      exact ih h
    | cons q t =>
      rw [show locateGo fs dir all (m :: rest) = .ok q from by
        simp only [locateGo, hm]] at h
      have hpq : q = p := by injection h
      subst hpq
      have hq : q ∈ (fs.rglob dir m).filter (fun x => fs.isFile x) := by
        rw [hm]; exact List.mem_cons_self q t
      exact (mem_rglob_filtered hq).1

theorem rglob_filter_addDir (fs : FS) (d dir : FsPath) (n : String)
    (hnd : fs.isFile d = false) :
    ((fs.addDir d).rglob dir n).filter (fun p => (fs.addDir d).isFile p) =
    (fs.rglob dir n).filter (fun p => fs.isFile p) := by
  show (List.filter _ (d :: fs.nodes)).filter _ = _
  rw [List.filter_cons]
  split
  · rw [List.filter_cons]
    have hd : (fs.addDir d).isFile d = false := hnd
    simp only [hd, Bool.false_eq_true, if_false]
    rfl
  · rfl

theorem locateGo_addDir (fs : FS) (d dir : FsPath) (all : List String)
    (hnd : fs.isFile d = false) :
    ∀ rest, locateGo (fs.addDir d) dir all rest = locateGo fs dir all rest := by
  intro rest
  induction rest with
  | nil => rfl
  | cons m rest ih =>
    simp only [locateGo, rglob_filter_addDir fs d dir m hnd, ih]

/-- C10: the locator only ever returns regular files, and adding a directory
entry (even one whose name matches a candidate) to the store changes nothing:
the directory is skipped and does not prevent any candidate from matching. -/
theorem c10_locate_skips_directories (fs : FS) (dir d : FsPath) (names : List String)
    (hdir : fs.isDir dir = true) (hnd : fs.isFile d = false) :
    (∀ p, locate_model_file fs dir names = .ok p → fs.isFile p = true) ∧
    locate_model_file (fs.addDir d) dir names = locate_model_file fs dir names := by
  constructor
  · intro p hp
    simp only [locate_model_file, hdir, if_true] at hp
    exact locateGo_ok_isFile hp
  · have hdir2 : (fs.addDir d).isDir dir = true :=
      isDir_iff.mpr (List.mem_cons_of_mem d (isDir_iff.mp hdir))
    simp only [locate_model_file, hdir, hdir2, if_true]
    exact locateGo_addDir fs d dir names hnd names

/-- Witness for C10: a directory named like the first candidate is added and
the locator's outcome is unchanged. -/
theorem c10_witness :
    cxFSLoc.isDir ["d"] = true ∧
    cxFSLoc.isFile ["d", "model.onnx"] = false ∧
    ((∀ p, locate_model_file cxFSLoc ["d"] ["model.onnx"] = .ok p →
        cxFSLoc.isFile p = true) ∧
      locate_model_file (cxFSLoc.addDir ["d", "model.onnx"]) ["d"] ["model.onnx"] =
        locate_model_file cxFSLoc ["d"] ["model.onnx"]) :=
  ⟨by decide, by decide,
    c10_locate_skips_directories cxFSLoc ["d"] ["d", "model.onnx"] ["model.onnx"]
      (by decide) (by decide)⟩

end FastEmbed
